import Mathlib

/-!
Shallow embedding of the builder_pattern library
(src/builder_pattern/step.py and src/builder_pattern/builder.py).

Python callables are modelled by a declared parameter count (what
inspect.signature reports, the owning instance included) together with a
semantic application function; the Option step-key argument of the semantics
records whether the trailing step-key argument was actually passed.  Python
dicts are modelled as insertion-ordered association lists.  Exceptions are
modelled with Except; invocations of user step operations and of the state
hooks are additionally recorded in an event trace so that ordering and
skipped-step properties can be stated.
-/

namespace BuilderPattern

variable {K B IP S FP V E A : Type}

/-- A Python function used as a build-step operation: its declared parameter
count (the owning instance included) and its semantics.  The Option argument
is some exactly when the trailing step-key argument is passed. -/
structure BuildFunc (K B IP : Type) where
  params : Nat
  app : B → Option K → IP

/-- A Python function used as a process-step operation. -/
structure ProcessFunc (K B IP S : Type) where
  params : Nat
  app : B → IP → S → Option K → S

/-- Errors raised during build(): dict KeyError on either executor-factory
table, or the arity ValueError raised inside an executor. -/
inductive BuildError (K : Type) where
  | keyErrorBuild (k : K)
  | keyErrorProcess (k : K)
  | valueError
  deriving DecidableEq

/-- Errors raised at type-registration time by builder_meta. -/
inductive RegError (K : Type) where
  | multipleDefault
  | duplicateKey (k : K)
  deriving DecidableEq

/-- step.py build_step.executor_factory: the returned executor inspects the
declared parameter count at call time; one parameter means call with the
builder only, two means the step key is appended, anything else raises
ValueError. -/
def buildExec (f : BuildFunc K B IP) (builder : B) (step_key : K) :
    Except (BuildError K) IP :=
  if f.params = 1 then Except.ok (f.app builder none)
  else if f.params = 2 then Except.ok (f.app builder (some step_key))
  else Except.error BuildError.valueError

/-- step.py process_step.executor_factory: three parameters means call with
(intermediate_product, state), four means the step key is appended, anything
else raises ValueError. -/
def processExec (f : ProcessFunc K B IP S) (builder : B)
    (intermediate_product : IP) (state : S) (step_key : K) :
    Except (BuildError K) S :=
  if f.params = 3 then Except.ok (f.app builder intermediate_product state none)
  else if f.params = 4 then
    Except.ok (f.app builder intermediate_product state (some step_key))
  else Except.error BuildError.valueError

/-- step.py build_step: a list of step keys and the wrapped function. -/
structure build_step (K B IP : Type) where
  step_keys : List K
  func : BuildFunc K B IP

/-- step.py process_step: step keys, the default flag and the wrapped
function. -/
structure process_step (K B IP S : Type) where
  step_keys : List K
  default : Bool
  func : ProcessFunc K B IP S

/-- step.py _step.__call__ applied to an already-decorated build step: the
existing definition's key list is extended with the outer decorator's keys
and the existing definition itself (its func unchanged) is the result. -/
def build_step.callOnStep (self other : build_step K B IP) :
    build_step K B IP :=
  { other with step_keys := other.step_keys ++ self.step_keys }

/-- step.py _step.__call__ applied to an already-decorated process step. -/
def process_step.callOnStep (self other : process_step K B IP S) :
    process_step K B IP S :=
  { other with step_keys := other.step_keys ++ self.step_keys }

/-- Lookup in an insertion-ordered association list (Python dict access). -/
def alookup [DecidableEq K] : List (K × V) → K → Option V
  | [], _ => none
  | (k', v) :: rest, k => if k' = k then some v else alookup rest k

/-- The key list of an association list, in insertion order (dict.keys()). -/
def akeys : List (K × V) → List K := List.map Prod.fst

/-- dict.setdefault: keep an existing binding, otherwise append a new one. -/
def asetdefault [DecidableEq K] (l : List (K × V)) (k : K) (v : V) :
    List (K × V) :=
  if (alookup l k).isSome then l else l ++ [(k, v)]

/-- A step attribute found on a concrete builder class, as classified by
builder_meta.__init__ (the list stands for the iteration order of dir(cls)). -/
inductive StepDef (K B IP S : Type) where
  | bstep (b : build_step K B IP)
  | pstep (p : process_step K B IP S)

/-- The per-type pair of executor-factory tables built by builder_meta. -/
structure StepTables (K B IP S : Type) where
  build_executor_factories : List (K × BuildFunc K B IP)
  process_executor_factories : List (K × ProcessFunc K B IP S)

/-- First pass of builder_meta.__init__: scan for process steps with the
default flag; a second one raises ValueError. -/
def findDefault : List (StepDef K B IP S) → Option (ProcessFunc K B IP S) →
    Except (RegError K) (Option (ProcessFunc K B IP S))
  | [], acc => Except.ok acc
  | StepDef.bstep _ :: rest, acc => findDefault rest acc
  | StepDef.pstep p :: rest, acc =>
    if p.default then
      match acc with
      | some _ => Except.error RegError.multipleDefault
      | none => findDefault rest (some p.func)
    else findDefault rest acc

/-- Inner loop of builder_meta.update_map: insert each declared key into the
table, raising ValueError if the key is already in use. -/
def insertKeys [DecidableEq K] (f : V) : List K → List (K × V) →
    Except (RegError K) (List (K × V))
  | [], tbl => Except.ok tbl
  | k :: rest, tbl =>
    if (alookup tbl k).isSome then Except.error (RegError.duplicateKey k)
    else insertKeys f rest (tbl ++ [(k, f)])

/-- builder_meta.update_map: dispatch on the step kind and insert into the
matching table. -/
def update_map [DecidableEq K] (t : StepTables K B IP S) :
    StepDef K B IP S → Except (RegError K) (StepTables K B IP S)
  | StepDef.bstep b =>
    Except.map (fun tbl => { t with build_executor_factories := tbl })
      (insertKeys b.func b.step_keys t.build_executor_factories)
  | StepDef.pstep p =>
    Except.map (fun tbl => { t with process_executor_factories := tbl })
      (insertKeys p.func p.step_keys t.process_executor_factories)

/-- Second pass of builder_meta.__init__: update_map over every step
attribute in dir(cls) order. -/
def registerAll [DecidableEq K] : List (StepDef K B IP S) →
    StepTables K B IP S → Except (RegError K) (StepTables K B IP S)
  | [], t => Except.ok t
  | s :: rest, t =>
    match update_map t s with
    | Except.error e => Except.error e
    | Except.ok t' => registerAll rest t'

/-- Third pass of builder_meta.__init__: setdefault the default process
operation under every key of the build table. -/
def backfill [DecidableEq K] (d : ProcessFunc K B IP S) (buildKeys : List K)
    (proc : List (K × ProcessFunc K B IP S)) :
    List (K × ProcessFunc K B IP S) :=
  buildKeys.foldl (fun acc k => asetdefault acc k d) proc

/-- builder_meta.__init__ in full: default scan, table construction, default
back-fill. -/
def builder_meta_init [DecidableEq K] (attrs : List (StepDef K B IP S)) :
    Except (RegError K) (StepTables K B IP S) :=
  match findDefault attrs none with
  | Except.error e => Except.error e
  | Except.ok dopt =>
    match registerAll attrs (StepTables.mk [] []) with
    | Except.error e => Except.error e
    | Except.ok t =>
      match dopt with
      | none => Except.ok t
      | some d =>
        let proc := backfill d (akeys t.build_executor_factories)
          t.process_executor_factories
        Except.ok { t with process_executor_factories := proc }

/-- A concrete builder instance: the bound self value, its type's step
tables, and the three hooks (modelled as bound methods). -/
structure Builder (K B IP S FP : Type) where
  inst : B
  tables : StepTables K B IP S
  create_initial_state : S
  evaluate_final_state : S → FP
  filter_and_sort_process_step_keys : List K → List K

/-- The default body of Builder.filter_and_sort_process_step_keys: return
the received list unmodified. -/
def default_filter_and_sort (process_step_keys : List K) : List K :=
  process_step_keys

/-- Observable invocations during one build() call. -/
inductive Event (K : Type) where
  | initState
  | buildCall (k : K)
  | processCall (k : K)
  | evalFinal
  deriving DecidableEq

/-- Builder._unfiltered_process_step_keys: the process-table keys in table
iteration order. -/
def Builder.unfilteredKeys [DecidableEq K] (bld : Builder K B IP S FP) :
    List K :=
  akeys bld.tables.process_executor_factories

/-- Builder._filtered_and_sorted_process_step_keys. -/
def Builder.filteredKeys [DecidableEq K] (bld : Builder K B IP S FP) :
    List K :=
  bld.filter_and_sort_process_step_keys bld.unfilteredKeys

/-- The loop of Builder.build, instrumented with an event trace: for each
step key resolve the build factory (KeyError if absent), run the build
executor, resolve the process factory (KeyError if absent), run the process
executor, and thread the state.  An event is appended exactly when the user
operation is actually invoked. -/
def runSteps [DecidableEq K] (bld : Builder K B IP S FP) :
    List K → S → List (Event K) → List (Event K) × Except (BuildError K) S
  | [], state, tr => (tr, Except.ok state)
  | step_key :: rest, state, tr =>
    match alookup bld.tables.build_executor_factories step_key with
    | none => (tr, Except.error (BuildError.keyErrorBuild step_key))
    | some bf =>
      match buildExec bf bld.inst step_key with
      | Except.error e => (tr, Except.error e)
      | Except.ok intermediate_product =>
        match alookup bld.tables.process_executor_factories step_key with
        | none => (tr ++ [Event.buildCall step_key],
                   Except.error (BuildError.keyErrorProcess step_key))
        | some pf =>
          match processExec pf bld.inst intermediate_product state step_key with
          | Except.error e => (tr ++ [Event.buildCall step_key], Except.error e)
          | Except.ok state' =>
            runSteps bld rest state'
              (tr ++ [Event.buildCall step_key, Event.processCall step_key])

/-- Builder.build with its trace: initial state, the step loop over the
filtered and sorted process-step keys, final evaluation. -/
def Builder.buildRun [DecidableEq K] (bld : Builder K B IP S FP) :
    List (Event K) × Except (BuildError K) FP :=
  match runSteps bld bld.filteredKeys bld.create_initial_state
      [Event.initState] with
  | (tr, Except.ok state) =>
    (tr ++ [Event.evalFinal], Except.ok (bld.evaluate_final_state state))
  | (tr, Except.error e) => (tr, Except.error e)

/-- Builder.build: the returned final product (or the propagated error). -/
def Builder.build [DecidableEq K] (bld : Builder K B IP S FP) :
    Except (BuildError K) FP :=
  bld.buildRun.2

/-- One iteration of the build loop as a fold body: resolve both factories
and run the two executors at one step key. -/
def specStep [DecidableEq K] (bld : Builder K B IP S FP) (state : S)
    (step_key : K) : Except (BuildError K) S :=
  match alookup bld.tables.build_executor_factories step_key with
  | none => Except.error (BuildError.keyErrorBuild step_key)
  | some bf =>
    match buildExec bf bld.inst step_key with
    | Except.error e => Except.error e
    | Except.ok intermediate_product =>
      match alookup bld.tables.process_executor_factories step_key with
      | none => Except.error (BuildError.keyErrorProcess step_key)
      | some pf => processExec pf bld.inst intermediate_product state step_key

/-- The expected trace of a fully successful run: one build and one process
invocation per scheduled key, in order. -/
def pairEvents : List K → List (Event K)
  | [] => []
  | k :: rest => Event.buildCall k :: Event.processCall k :: pairEvents rest

/-- Number of create_initial_state invocations recorded in a trace. -/
def countInitState : List (Event K) → Nat
  | [] => 0
  | Event.initState :: rest => countInitState rest + 1
  | _ :: rest => countInitState rest

/-- A step key is fully serviceable on a builder: both tables bind it and
both bound operations declare an accepted parameter count. -/
def stepOk [DecidableEq K] (bld : Builder K B IP S FP) (k : K) : Bool :=
  match alookup bld.tables.build_executor_factories k with
  | none => false
  | some bf =>
    (bf.params == 1 || bf.params == 2) &&
      (match alookup bld.tables.process_executor_factories k with
       | none => false
       | some pf => pf.params == 3 || pf.params == 4)

/-- Whether an Except is a success. -/
def exceptOk : Except E A → Bool
  | Except.ok _ => true
  | Except.error _ => false

/-- All build-table bindings a list of step attributes declares, in
registration order. -/
def declBuildAssoc : List (StepDef K B IP S) → List (K × BuildFunc K B IP)
  | [] => []
  | StepDef.bstep b :: rest =>
    b.step_keys.map (fun k => (k, b.func)) ++ declBuildAssoc rest
  | StepDef.pstep _ :: rest => declBuildAssoc rest

/-- All process-table bindings a list of step attributes declares, in
registration order. -/
def declProcAssoc : List (StepDef K B IP S) → List (K × ProcessFunc K B IP S)
  | [] => []
  | StepDef.bstep _ :: rest => declProcAssoc rest
  | StepDef.pstep p :: rest =>
    p.step_keys.map (fun k => (k, p.func)) ++ declProcAssoc rest

/-- All step keys declared by build steps, with multiplicity. -/
def declBuildKeys (attrs : List (StepDef K B IP S)) : List K :=
  akeys (declBuildAssoc attrs)

/-- All step keys declared by process steps, with multiplicity. -/
def declProcKeys (attrs : List (StepDef K B IP S)) : List K :=
  akeys (declProcAssoc attrs)

/-- The operations of the process steps carrying the default flag, in
scan order. -/
def declDefaults : List (StepDef K B IP S) → List (ProcessFunc K B IP S)
  | [] => []
  | StepDef.bstep _ :: rest => declDefaults rest
  | StepDef.pstep p :: rest =>
    if p.default then p.func :: declDefaults rest else declDefaults rest

theorem akeys_append (l₁ l₂ : List (K × V)) :
    akeys (l₁ ++ l₂) = akeys l₁ ++ akeys l₂ :=
  List.map_append _ _ _

theorem akeys_map_pair (f : V) (ks : List K) :
    akeys (ks.map (fun k => (k, f))) = ks := by
  induction ks with
  | nil => rfl
  | cons k rest ih => simp_all [akeys]

theorem alookup_isSome_iff [DecidableEq K] (l : List (K × V)) (k : K) :
    (alookup l k).isSome = true ↔ k ∈ akeys l := by
  induction l with
  | nil => simp [alookup, akeys]
  | cons p rest ih =>
    obtain ⟨k', v⟩ := p
    by_cases h : k' = k
    · subst h
      simp [alookup, akeys]
    · simp [alookup, akeys, h, ih, Ne.symm h]

theorem alookup_eq_none_iff [DecidableEq K] (l : List (K × V)) (k : K) :
    alookup l k = none ↔ k ∉ akeys l := by
  rw [← alookup_isSome_iff]
  cases alookup l k <;> simp

theorem alookup_append_some [DecidableEq K] {l₁ : List (K × V)} {k : K}
    {v : V} (l₂ : List (K × V)) (h : alookup l₁ k = some v) :
    alookup (l₁ ++ l₂) k = some v := by
  induction l₁ with
  | nil => simp [alookup] at h
  | cons p rest ih =>
    obtain ⟨k', w⟩ := p
    by_cases hk : k' = k
    · simp_all [alookup]
    · simp [alookup, hk] at h ⊢
      exact ih h

theorem alookup_append_none [DecidableEq K] {l₁ : List (K × V)} {k : K}
    (l₂ : List (K × V)) (h : alookup l₁ k = none) :
    alookup (l₁ ++ l₂) k = alookup l₂ k := by
  induction l₁ with
  | nil => simp
  | cons p rest ih =>
    obtain ⟨k', w⟩ := p
    by_cases hk : k' = k
    · simp [alookup, hk] at h
    · simp [alookup, hk] at h ⊢
      exact ih h

theorem asetdefault_lookup_self [DecidableEq K] (l : List (K × V)) (k : K)
    (v : V) : alookup (asetdefault l k v) k = some ((alookup l k).getD v) := by
  unfold asetdefault
  cases h : alookup l k with
  | none =>
    simp only [h, Option.isSome_none, Bool.false_eq_true, if_false]
    rw [alookup_append_none _ h]
    simp [alookup]
  | some w => simp [h]

theorem asetdefault_lookup_other [DecidableEq K] (l : List (K × V))
    {k k' : K} (v : V) (h : k' ≠ k) :
    alookup (asetdefault l k v) k' = alookup l k' := by
  unfold asetdefault
  cases hl : alookup l k with
  | some w => simp
  | none =>
    simp only [hl, Option.isSome_none, Bool.false_eq_true, if_false]
    cases hl' : alookup l k' with
    | some w => rw [alookup_append_some _ hl']
    | none =>
      rw [alookup_append_none _ hl']
      simp [alookup, Ne.symm h]

theorem backfill_preserves_some [DecidableEq K] {S' : Type}
    (d : ProcessFunc K B IP S') (bkeys : List K)
    {proc : List (K × ProcessFunc K B IP S')} {k : K}
    {v : ProcessFunc K B IP S'} (h : alookup proc k = some v) :
    alookup (backfill d bkeys proc) k = some v := by
  induction bkeys generalizing proc with
  | nil => exact h
  | cons b rest ih =>
    show alookup (backfill d rest (asetdefault proc b d)) k = some v
    apply ih
    by_cases hb : k = b
    · subst hb
      unfold asetdefault
      simp [h]
    · rw [asetdefault_lookup_other _ _ hb]
      exact h

theorem backfill_lookup_mem [DecidableEq K] {S' : Type}
    (d : ProcessFunc K B IP S') {bkeys : List K}
    (proc : List (K × ProcessFunc K B IP S')) {k : K} (h : k ∈ bkeys) :
    alookup (backfill d bkeys proc) k = some ((alookup proc k).getD d) := by
  induction bkeys generalizing proc with
  | nil => simp at h
  | cons b rest ih =>
    show alookup (backfill d rest (asetdefault proc b d)) k = _
    by_cases hb : k = b
    · subst hb
      have hself := asetdefault_lookup_self proc k d
      rw [backfill_preserves_some d rest hself]
    · have hmem : k ∈ rest := by
        rcases List.mem_cons.mp h with h1 | h1
        · exact absurd h1 hb
        · exact h1
      rw [ih _ hmem, asetdefault_lookup_other _ _ hb]

theorem insertKeys_ok_eq [DecidableEq K] (f : V) :
    ∀ (ks : List K) (tbl t' : List (K × V)),
    insertKeys f ks tbl = Except.ok t' →
    t' = tbl ++ ks.map (fun k => (k, f)) := by
  intro ks
  induction ks with
  | nil =>
    intro tbl t' h
    simp only [insertKeys, Except.ok.injEq] at h
    simp [h]
  | cons k rest ih =>
    intro tbl t' h
    by_cases hk : (alookup tbl k).isSome = true
    · simp [insertKeys, hk] at h
    · simp only [insertKeys, hk, Bool.false_eq_true, if_false] at h
      rw [ih _ _ h]
      simp

theorem insertKeys_error_form [DecidableEq K] (f : V) :
    ∀ (ks : List K) (tbl : List (K × V)) (e : RegError K),
    insertKeys f ks tbl = Except.error e → ∃ k, e = RegError.duplicateKey k := by
  intro ks
  induction ks with
  | nil =>
    intro tbl e h
    simp [insertKeys] at h
  | cons k rest ih =>
    intro tbl e h
    by_cases hk : (alookup tbl k).isSome = true
    · simp only [insertKeys, hk, if_true, Except.error.injEq] at h
      exact ⟨k, h.symm⟩
    · simp only [insertKeys, hk, Bool.false_eq_true, if_false] at h
      exact ih _ _ h

theorem insertKeys_ok_iff [DecidableEq K] (f : V) :
    ∀ (ks : List K) (tbl : List (K × V)),
    exceptOk (insertKeys f ks tbl) = true ↔
      (ks.Nodup ∧ ∀ k ∈ ks, k ∉ akeys tbl) := by
  intro ks
  induction ks with
  | nil =>
    intro tbl
    simp [insertKeys, exceptOk]
  | cons k rest ih =>
    intro tbl
    by_cases hk : (alookup tbl k).isSome = true
    · have hmem : k ∈ akeys tbl := (alookup_isSome_iff tbl k).mp hk
      simp only [insertKeys, hk, if_true]
      constructor
      · intro h
        simp [exceptOk] at h
      · rintro ⟨-, hall⟩
        exact absurd hmem (hall k (List.mem_cons_self k rest))
    · have hnot : k ∉ akeys tbl := fun hm =>
        hk ((alookup_isSome_iff tbl k).mpr hm)
      simp only [insertKeys, hk, Bool.false_eq_true, if_false]
      rw [ih]
      have hkeys : akeys (tbl ++ [(k, f)]) = akeys tbl ++ [k] := by
        rw [akeys_append]
        rfl
      rw [hkeys]
      constructor
      · rintro ⟨hnd, hall⟩
        refine ⟨List.nodup_cons.mpr ⟨fun hkr => ?_, hnd⟩, ?_⟩
        · have := hall k hkr
          simp at this
        · intro j hj
          rcases List.mem_cons.mp hj with hj1 | hj1
          · exact hj1 ▸ hnot
          · intro hjm
            have := hall j hj1
            simp [hjm] at this
      · rintro ⟨hnd, hall⟩
        have hkr : k ∉ rest := (List.nodup_cons.mp hnd).1
        refine ⟨(List.nodup_cons.mp hnd).2, ?_⟩
        intro j hj
        have hjt : j ∉ akeys tbl := hall j (List.mem_cons_of_mem k hj)
        intro hjm
        rcases List.mem_append.mp hjm with hj1 | hj1
        · exact hjt hj1
        · have : j = k := by simpa using hj1
          exact hkr (this ▸ hj)

theorem registerAll_ok_eq [DecidableEq K] :
    ∀ (attrs : List (StepDef K B IP S)) (t t' : StepTables K B IP S),
    registerAll attrs t = Except.ok t' →
    t'.build_executor_factories =
        t.build_executor_factories ++ declBuildAssoc attrs ∧
      t'.process_executor_factories =
        t.process_executor_factories ++ declProcAssoc attrs := by
  intro attrs
  induction attrs with
  | nil =>
    intro t t' h
    simp only [registerAll, Except.ok.injEq] at h
    simp [h, declBuildAssoc, declProcAssoc]
  | cons s rest ih =>
    intro t t' h
    cases s with
    | bstep b =>
      cases hins : insertKeys b.func b.step_keys t.build_executor_factories with
      | error e =>
        simp [registerAll, update_map, hins, Except.map] at h
      | ok tbl =>
        simp only [registerAll, update_map, hins, Except.map] at h
        obtain ⟨h1, h2⟩ := ih _ _ h
        have heq := insertKeys_ok_eq b.func _ _ _ hins
        constructor
        · rw [h1]
          simp only [heq, declBuildAssoc, List.append_assoc]
        · rw [h2]
          simp [declProcAssoc]
    | pstep p =>
      cases hins : insertKeys p.func p.step_keys
          t.process_executor_factories with
      | error e =>
        simp [registerAll, update_map, hins, Except.map] at h
      | ok tbl =>
        simp only [registerAll, update_map, hins, Except.map] at h
        obtain ⟨h1, h2⟩ := ih _ _ h
        have heq := insertKeys_ok_eq p.func _ _ _ hins
        constructor
        · rw [h1]
          simp [declBuildAssoc]
        · rw [h2]
          simp only [heq, declProcAssoc, List.append_assoc]

theorem registerAll_error_form [DecidableEq K] :
    ∀ (attrs : List (StepDef K B IP S)) (t : StepTables K B IP S)
    (e : RegError K),
    registerAll attrs t = Except.error e →
    ∃ k, e = RegError.duplicateKey k := by
  intro attrs
  induction attrs with
  | nil =>
    intro t e h
    simp [registerAll] at h
  | cons s rest ih =>
    intro t e h
    cases s with
    | bstep b =>
      cases hins : insertKeys b.func b.step_keys t.build_executor_factories with
      | error e' =>
        simp only [registerAll, update_map, hins, Except.map,
          Except.error.injEq] at h
        exact h ▸ insertKeys_error_form b.func _ _ _ hins
      | ok tbl =>
        simp only [registerAll, update_map, hins, Except.map] at h
        exact ih _ _ h
    | pstep p =>
      cases hins : insertKeys p.func p.step_keys
          t.process_executor_factories with
      | error e' =>
        simp only [registerAll, update_map, hins, Except.map,
          Except.error.injEq] at h
        exact h ▸ insertKeys_error_form p.func _ _ _ hins
      | ok tbl =>
        simp only [registerAll, update_map, hins, Except.map] at h
        exact ih _ _ h

theorem backfill_lookup_not_mem [DecidableEq K] {S' : Type}
    (d : ProcessFunc K B IP S') {bkeys : List K}
    (proc : List (K × ProcessFunc K B IP S')) {k : K} (h : k ∉ bkeys) :
    alookup (backfill d bkeys proc) k = alookup proc k := by
  induction bkeys generalizing proc with
  | nil => rfl
  | cons b rest ih =>
    show alookup (backfill d rest (asetdefault proc b d)) k = _
    have hb : k ≠ b := fun he => h (he ▸ List.mem_cons_self b rest)
    have hrest : k ∉ rest := fun hr => h (List.mem_cons_of_mem b hr)
    rw [ih _ hrest, asetdefault_lookup_other _ _ hb]

theorem declBuildKeys_cons_b (b : build_step K B IP)
    (rest : List (StepDef K B IP S)) :
    declBuildKeys (StepDef.bstep b :: rest) =
      b.step_keys ++ declBuildKeys rest := by
  simp [declBuildKeys, declBuildAssoc, akeys_append, akeys_map_pair]

theorem declBuildKeys_cons_p (p : process_step K B IP S)
    (rest : List (StepDef K B IP S)) :
    declBuildKeys (StepDef.pstep p :: rest) = declBuildKeys rest := rfl

theorem declProcKeys_cons_b (b : build_step K B IP)
    (rest : List (StepDef K B IP S)) :
    declProcKeys (StepDef.bstep b :: rest) = declProcKeys rest := rfl

theorem declProcKeys_cons_p (p : process_step K B IP S)
    (rest : List (StepDef K B IP S)) :
    declProcKeys (StepDef.pstep p :: rest) =
      p.step_keys ++ declProcKeys rest := by
  simp [declProcKeys, declProcAssoc, akeys_append, akeys_map_pair]

theorem registerAll_ok_iff [DecidableEq K] :
    ∀ (attrs : List (StepDef K B IP S)) (t : StepTables K B IP S),
    (akeys t.build_executor_factories).Nodup →
    (akeys t.process_executor_factories).Nodup →
    (exceptOk (registerAll attrs t) = true ↔
      ((akeys t.build_executor_factories ++ declBuildKeys attrs).Nodup ∧
       (akeys t.process_executor_factories ++ declProcKeys attrs).Nodup)) := by
  intro attrs
  induction attrs with
  | nil =>
    intro t hb hp
    simp only [akeys] at hb hp
    simp [registerAll, exceptOk, declBuildKeys, declProcKeys,
      declBuildAssoc, declProcAssoc, akeys, hb, hp]
  | cons s rest ih =>
    intro t hb hp
    cases s with
    | bstep b =>
      rw [declBuildKeys_cons_b, declProcKeys_cons_b, ← List.append_assoc]
      cases hins : insertKeys b.func b.step_keys
          t.build_executor_factories with
      | error e =>
        simp only [registerAll, update_map, hins, Except.map]
        constructor
        · intro h
          simp [exceptOk] at h
        · rintro ⟨h1, -⟩
          have h2 : (akeys t.build_executor_factories ++ b.step_keys).Nodup :=
            (List.sublist_append_left _ _).nodup h1
          rcases List.nodup_append.mp h2 with ⟨-, hknd, hdisj⟩
          have hcond : b.step_keys.Nodup ∧
              ∀ k ∈ b.step_keys, k ∉ akeys t.build_executor_factories :=
            ⟨hknd, fun k hk hmem => hdisj hmem hk⟩
          have := (insertKeys_ok_iff b.func b.step_keys
            t.build_executor_factories).mpr hcond
          rw [hins] at this
          simp [exceptOk] at this
      | ok tbl =>
        have hcond := (insertKeys_ok_iff b.func b.step_keys
          t.build_executor_factories).mp (by rw [hins]; rfl)
        have heq := insertKeys_ok_eq b.func _ _ _ hins
        have hkeys : akeys tbl =
            akeys t.build_executor_factories ++ b.step_keys := by
          rw [heq, akeys_append, akeys_map_pair]
        have hnd : (akeys t.build_executor_factories ++ b.step_keys).Nodup :=
          List.nodup_append.mpr
            ⟨hb, hcond.1, fun a ha hb2 => hcond.2 a hb2 ha⟩
        have := ih { t with build_executor_factories := tbl }
          (by simpa [hkeys] using hnd) hp
        simp only [registerAll, update_map, hins, Except.map]
        simpa [hkeys] using this
    | pstep p =>
      rw [declBuildKeys_cons_p, declProcKeys_cons_p, ← List.append_assoc]
      cases hins : insertKeys p.func p.step_keys
          t.process_executor_factories with
      | error e =>
        simp only [registerAll, update_map, hins, Except.map]
        constructor
        · intro h
          simp [exceptOk] at h
        · rintro ⟨-, h1⟩
          have h2 : (akeys t.process_executor_factories ++
              p.step_keys).Nodup :=
            (List.sublist_append_left _ _).nodup h1
          rcases List.nodup_append.mp h2 with ⟨-, hknd, hdisj⟩
          have hcond : p.step_keys.Nodup ∧
              ∀ k ∈ p.step_keys, k ∉ akeys t.process_executor_factories :=
            ⟨hknd, fun k hk hmem => hdisj hmem hk⟩
          have := (insertKeys_ok_iff p.func p.step_keys
            t.process_executor_factories).mpr hcond
          rw [hins] at this
          simp [exceptOk] at this
      | ok tbl =>
        have hcond := (insertKeys_ok_iff p.func p.step_keys
          t.process_executor_factories).mp (by rw [hins]; rfl)
        have heq := insertKeys_ok_eq p.func _ _ _ hins
        have hkeys : akeys tbl =
            akeys t.process_executor_factories ++ p.step_keys := by
          rw [heq, akeys_append, akeys_map_pair]
        have hnd : (akeys t.process_executor_factories ++
            p.step_keys).Nodup :=
          List.nodup_append.mpr
            ⟨hp, hcond.1, fun a ha hb2 => hcond.2 a hb2 ha⟩
        have := ih { t with process_executor_factories := tbl } hb
          (by simpa [hkeys] using hnd)
        simp only [registerAll, update_map, hins, Except.map]
        simpa [hkeys] using this

theorem findDefault_no_defaults :
    ∀ (attrs : List (StepDef K B IP S))
    (acc : Option (ProcessFunc K B IP S)), declDefaults attrs = [] →
    findDefault attrs acc = Except.ok acc := by
  intro attrs
  induction attrs with
  | nil => intro acc _; rfl
  | cons s rest ih =>
    intro acc h
    cases s with
    | bstep b => exact ih acc h
    | pstep p =>
      by_cases hd : p.default
      · simp [declDefaults, hd] at h
      · simp only [declDefaults, hd, if_false] at h
        simp only [findDefault, hd, if_false]
        exact ih acc h

theorem findDefault_some_err :
    ∀ (attrs : List (StepDef K B IP S)) (d : ProcessFunc K B IP S),
    declDefaults attrs ≠ [] →
    findDefault attrs (some d) = Except.error RegError.multipleDefault := by
  intro attrs
  induction attrs with
  | nil => intro d h; exact absurd rfl h
  | cons s rest ih =>
    intro d h
    cases s with
    | bstep b => exact ih d h
    | pstep p =>
      by_cases hd : p.default
      · simp [findDefault, hd]
      · simp only [declDefaults, hd, if_false] at h
        simp only [findDefault, hd, if_false]
        exact ih d h

theorem findDefault_none_le_one :
    ∀ (attrs : List (StepDef K B IP S)),
    (declDefaults attrs).length ≤ 1 →
    findDefault attrs none = Except.ok (declDefaults attrs).head? := by
  intro attrs
  induction attrs with
  | nil => intro _; rfl
  | cons s rest ih =>
    intro h
    cases s with
    | bstep b => exact ih h
    | pstep p =>
      by_cases hd : p.default
      · simp only [declDefaults, hd, if_true] at h ⊢
        have hrest : declDefaults rest = [] := by
          cases hds : @declDefaults K B IP S rest
          · rfl
          · rw [hds] at h
            simp at h
        simp only [findDefault, hd, if_true]
        rw [findDefault_no_defaults rest (some p.func) hrest]
        simp
      · simp only [declDefaults, hd, if_false] at h ⊢
        simp only [findDefault, hd, if_false]
        exact ih h

theorem findDefault_none_two :
    ∀ (attrs : List (StepDef K B IP S)),
    2 ≤ (declDefaults attrs).length →
    findDefault attrs none = Except.error RegError.multipleDefault := by
  intro attrs
  induction attrs with
  | nil => intro h; simp [declDefaults] at h
  | cons s rest ih =>
    intro h
    cases s with
    | bstep b => exact ih h
    | pstep p =>
      by_cases hd : p.default
      · simp only [declDefaults, hd, if_true] at h
        have hrest : @declDefaults K B IP S rest ≠ [] := by
          intro he
          rw [he] at h
          simp at h
        simp only [findDefault, hd, if_true]
        exact findDefault_some_err rest p.func hrest
      · simp only [declDefaults, hd, if_false] at h
        simp only [findDefault, hd, if_false]
        exact ih h

theorem alookup_map_pair [DecidableEq K] (f : V) {ks : List K} {k : K}
    (h : k ∈ ks) : alookup (ks.map (fun j => (j, f))) k = some f := by
  induction ks with
  | nil => simp at h
  | cons k' rest ih =>
    by_cases hk : k' = k
    · simp [alookup, hk]
    · rcases List.mem_cons.mp h with h1 | h1
      · exact absurd h1.symm hk
      · simp only [List.map_cons, alookup, hk, if_false]
        exact ih h1

theorem builder_meta_init_ok_iff [DecidableEq K]
    (attrs : List (StepDef K B IP S)) :
    exceptOk (builder_meta_init attrs) = true ↔
      ((declDefaults attrs).length ≤ 1 ∧ (declBuildKeys attrs).Nodup ∧
        (declProcKeys attrs).Nodup) := by
  have hreg := registerAll_ok_iff attrs (StepTables.mk [] [])
    (by simp [akeys]) (by simp [akeys])
  simp only [akeys, List.map_nil, List.nil_append] at hreg
  by_cases hlen : (declDefaults attrs).length ≤ 1
  · have hfd := findDefault_none_le_one attrs hlen
    cases hra : registerAll attrs (StepTables.mk [] []) with
    | error e =>
      have herr : builder_meta_init attrs = Except.error e := by
        unfold builder_meta_init
        rw [hfd, hra]
      rw [herr]
      rw [hra] at hreg
      simp only [exceptOk] at hreg
      constructor
      · intro h
        simp [exceptOk] at h
      · rintro ⟨-, hnd1, hnd2⟩
        have : False := by
          have := hreg.mpr ⟨hnd1, hnd2⟩
          simp at this
        exact this.elim
    | ok t =>
      have hok : exceptOk (builder_meta_init attrs) = true := by
        unfold builder_meta_init
        rw [hfd, hra]
        cases (declDefaults attrs).head? with
        | none => rfl
        | some d => rfl
      rw [hok]
      rw [hra] at hreg
      simp only [exceptOk] at hreg
      have hnd := hreg.mp (by trivial)
      simp [hlen, hnd.1, hnd.2]
  · have hfd := findDefault_none_two attrs (by omega)
    have herr : builder_meta_init attrs =
        Except.error RegError.multipleDefault := by
      unfold builder_meta_init
      rw [hfd]
    rw [herr]
    simp [exceptOk, hlen]

theorem builder_meta_init_dup [DecidableEq K]
    {attrs : List (StepDef K B IP S)}
    (hlen : (declDefaults attrs).length ≤ 1)
    (hnd : ¬((declBuildKeys attrs).Nodup ∧ (declProcKeys attrs).Nodup)) :
    ∃ k, builder_meta_init attrs = Except.error (RegError.duplicateKey k) := by
  have hfd := findDefault_none_le_one attrs hlen
  cases hra : registerAll attrs (StepTables.mk [] []) with
  | ok t =>
    exfalso
    have hok : exceptOk (builder_meta_init attrs) = true := by
      unfold builder_meta_init
      rw [hfd, hra]
      cases (declDefaults attrs).head? with
      | none => rfl
      | some d => rfl
    have := (builder_meta_init_ok_iff attrs).mp hok
    exact hnd ⟨this.2.1, this.2.2⟩
  | error e =>
    obtain ⟨k, hk⟩ := registerAll_error_form attrs _ _ hra
    refine ⟨k, ?_⟩
    unfold builder_meta_init
    rw [hfd, hra, hk]

theorem builder_meta_init_multi_default [DecidableEq K]
    {attrs : List (StepDef K B IP S)}
    (h : 2 ≤ (declDefaults attrs).length) :
    builder_meta_init attrs = Except.error RegError.multipleDefault := by
  unfold builder_meta_init
  rw [findDefault_none_two attrs h]

theorem builder_meta_init_ok_default [DecidableEq K]
    {attrs : List (StepDef K B IP S)} {d : ProcessFunc K B IP S}
    {T : StepTables K B IP S}
    (hfd : findDefault attrs none = Except.ok (some d))
    (hT : builder_meta_init attrs = Except.ok T) :
    T.build_executor_factories = declBuildAssoc attrs ∧
      T.process_executor_factories =
        backfill d (akeys (declBuildAssoc attrs)) (declProcAssoc attrs) := by
  unfold builder_meta_init at hT
  rw [hfd] at hT
  cases hra : registerAll attrs (StepTables.mk [] []) with
  | error e =>
    rw [hra] at hT
    simp at hT
  | ok t =>
    rw [hra] at hT
    simp only [Except.ok.injEq] at hT
    obtain ⟨h1, h2⟩ := registerAll_ok_eq attrs _ _ hra
    simp only [List.nil_append] at h1 h2
    rw [← hT]
    exact ⟨h1, by rw [h1, h2]⟩

theorem builder_meta_init_ok_no_default [DecidableEq K]
    {attrs : List (StepDef K B IP S)} {T : StepTables K B IP S}
    (hfd : findDefault attrs none = Except.ok none)
    (hT : builder_meta_init attrs = Except.ok T) :
    T.build_executor_factories = declBuildAssoc attrs ∧
      T.process_executor_factories = declProcAssoc attrs := by
  unfold builder_meta_init at hT
  rw [hfd] at hT
  cases hra : registerAll attrs (StepTables.mk [] []) with
  | error e =>
    rw [hra] at hT
    simp at hT
  | ok t =>
    rw [hra] at hT
    simp only [Except.ok.injEq] at hT
    obtain ⟨h1, h2⟩ := registerAll_ok_eq attrs _ _ hra
    simp only [List.nil_append] at h1 h2
    rw [← hT]
    exact ⟨h1, h2⟩

theorem buildExec_error_form {f : BuildFunc K B IP} {b : B} {k : K}
    {e : BuildError K} (h : buildExec f b k = Except.error e) :
    e = BuildError.valueError := by
  unfold buildExec at h
  by_cases h1 : f.params = 1
  · simp [h1] at h
  · by_cases h2 : f.params = 2
    · simp [h1, h2] at h
    · simp only [h1, h2, if_false, Except.error.injEq] at h
      exact h.symm

theorem processExec_error_form {f : ProcessFunc K B IP S} {b : B} {ip : IP}
    {st : S} {k : K} {e : BuildError K}
    (h : processExec f b ip st k = Except.error e) :
    e = BuildError.valueError := by
  unfold processExec at h
  by_cases h1 : f.params = 3
  · simp [h1] at h
  · by_cases h2 : f.params = 4
    · simp [h1, h2] at h
    · simp only [h1, h2, if_false, Except.error.injEq] at h
      exact h.symm

theorem buildExec_ok_of_params {f : BuildFunc K B IP} (b : B) (k : K)
    (h : f.params = 1 ∨ f.params = 2) : ∃ ip, buildExec f b k = Except.ok ip := by
  rcases h with h | h
  · exact ⟨f.app b none, by simp [buildExec, h]⟩
  · exact ⟨f.app b (some k), by simp [buildExec, h]⟩

theorem processExec_ok_of_params {f : ProcessFunc K B IP S} (b : B) (ip : IP)
    (st : S) (k : K) (h : f.params = 3 ∨ f.params = 4) :
    ∃ st', processExec f b ip st k = Except.ok st' := by
  rcases h with h | h
  · exact ⟨f.app b ip st none, by simp [processExec, h]⟩
  · exact ⟨f.app b ip st (some k), by simp [processExec, h]⟩

theorem stepOk_elim [DecidableEq K] {bld : Builder K B IP S FP} {k : K}
    (h : stepOk bld k = true) :
    ∃ bf pf, alookup bld.tables.build_executor_factories k = some bf ∧
      (bf.params = 1 ∨ bf.params = 2) ∧
      alookup bld.tables.process_executor_factories k = some pf ∧
      (pf.params = 3 ∨ pf.params = 4) := by
  unfold stepOk at h
  cases h1 : alookup bld.tables.build_executor_factories k with
  | none => rw [h1] at h; simp at h
  | some bf =>
    rw [h1] at h
    cases h2 : alookup bld.tables.process_executor_factories k with
    | none => rw [h2] at h; simp at h
    | some pf =>
      rw [h2] at h
      simp only [Bool.and_eq_true, Bool.or_eq_true, beq_iff_eq] at h
      exact ⟨bf, pf, rfl, h.1, rfl, h.2⟩

theorem runSteps_snd [DecidableEq K] (bld : Builder K B IP S FP) :
    ∀ (keys : List K) (st : S) (tr : List (Event K)),
    (runSteps bld keys st tr).2 = List.foldlM (specStep bld) st keys := by
  intro keys
  induction keys with
  | nil => intro st tr; rfl
  | cons k rest ih =>
    intro st tr
    cases h1 : alookup bld.tables.build_executor_factories k with
    | none => simp [runSteps, specStep, List.foldlM, h1, Bind.bind, Except.bind]
    | some bf =>
      cases h2 : buildExec bf bld.inst k with
      | error e =>
        simp [runSteps, specStep, List.foldlM, h1, h2, Bind.bind, Except.bind]
      | ok ip =>
        cases h3 : alookup bld.tables.process_executor_factories k with
        | none =>
          simp [runSteps, specStep, List.foldlM, h1, h2, h3, Bind.bind,
            Except.bind]
        | some pf =>
          cases h4 : processExec pf bld.inst ip st k with
          | error e =>
            simp [runSteps, specStep, List.foldlM, h1, h2, h3, h4, Bind.bind,
              Except.bind]
          | ok st' =>
            simp [runSteps, specStep, List.foldlM, h1, h2, h3, h4, Bind.bind,
              Except.bind, ih]

theorem countInitState_append (l₁ l₂ : List (Event K)) :
    countInitState (l₁ ++ l₂) = countInitState l₁ + countInitState l₂ := by
  induction l₁ with
  | nil => simp [countInitState]
  | cons e rest ih =>
    cases e
    all_goals simp [countInitState, ih]
    all_goals omega

theorem runSteps_trace_extra [DecidableEq K] (bld : Builder K B IP S FP) :
    ∀ (keys : List K) (st : S) (tr : List (Event K)),
    ∃ extra, (runSteps bld keys st tr).1 = tr ++ extra ∧
      countInitState extra = 0 := by
  intro keys
  induction keys with
  | nil =>
    intro st tr
    exact ⟨[], by simp [runSteps], rfl⟩
  | cons k rest ih =>
    intro st tr
    cases h1 : alookup bld.tables.build_executor_factories k with
    | none => exact ⟨[], by simp [runSteps, h1], rfl⟩
    | some bf =>
      cases h2 : buildExec bf bld.inst k with
      | error e => exact ⟨[], by simp [runSteps, h1, h2], rfl⟩
      | ok ip =>
        cases h3 : alookup bld.tables.process_executor_factories k with
        | none =>
          exact ⟨[Event.buildCall k], by simp [runSteps, h1, h2, h3],
            rfl⟩
        | some pf =>
          cases h4 : processExec pf bld.inst ip st k with
          | error e =>
            exact ⟨[Event.buildCall k], by simp [runSteps, h1, h2, h3, h4],
              rfl⟩
          | ok st' =>
            obtain ⟨extra, hext, hcnt⟩ := ih st'
              (tr ++ [Event.buildCall k, Event.processCall k])
            refine ⟨[Event.buildCall k, Event.processCall k] ++ extra, ?_, ?_⟩
            · simp only [runSteps, h1, h2, h3, h4]
              rw [hext, List.append_assoc]
            · simp [countInitState_append, hcnt, countInitState]

theorem runSteps_of_all_ok [DecidableEq K] (bld : Builder K B IP S FP) :
    ∀ (keys : List K) (st : S) (tr : List (Event K)),
    (∀ k ∈ keys, stepOk bld k = true) →
    (runSteps bld keys st tr).1 = tr ++ pairEvents keys ∧
      ∃ st', (runSteps bld keys st tr).2 = Except.ok st' := by
  intro keys
  induction keys with
  | nil =>
    intro st tr _
    exact ⟨by simp [runSteps, pairEvents], st, rfl⟩
  | cons k rest ih =>
    intro st tr hall
    obtain ⟨bf, pf, h1, hbp, h3, hpp⟩ :=
      stepOk_elim (hall k (List.mem_cons_self k rest))
    obtain ⟨ip, h2⟩ := buildExec_ok_of_params bld.inst k hbp
    obtain ⟨st', h4⟩ := processExec_ok_of_params bld.inst ip st k hpp
    have hrest : ∀ j ∈ rest, stepOk bld j = true :=
      fun j hj => hall j (List.mem_cons_of_mem k hj)
    obtain ⟨htr, hsnd⟩ := ih st'
      (tr ++ [Event.buildCall k, Event.processCall k]) hrest
    constructor
    · simp only [runSteps, h1, h2, h3, h4]
      rw [htr, List.append_assoc]
      rfl
    · refine hsnd.imp fun st2 h => ?_
      rw [← h]
      simp only [runSteps, h1, h2, h3, h4]

theorem runSteps_prefix_ok [DecidableEq K] (bld : Builder K B IP S FP) :
    ∀ (pre rest : List K) (st : S) (tr : List (Event K)),
    (∀ k ∈ pre, stepOk bld k = true) →
    ∃ st', runSteps bld (pre ++ rest) st tr =
      runSteps bld rest st' (tr ++ pairEvents pre) := by
  intro pre
  induction pre with
  | nil =>
    intro rest st tr _
    exact ⟨st, by simp [pairEvents]⟩
  | cons k pre' ih =>
    intro rest st tr hall
    obtain ⟨bf, pf, h1, hbp, h3, hpp⟩ :=
      stepOk_elim (hall k (List.mem_cons_self k pre'))
    obtain ⟨ip, h2⟩ := buildExec_ok_of_params bld.inst k hbp
    obtain ⟨st', h4⟩ := processExec_ok_of_params bld.inst ip st k hpp
    have hpre' : ∀ j ∈ pre', stepOk bld j = true :=
      fun j hj => hall j (List.mem_cons_of_mem k hj)
    obtain ⟨st2, hst2⟩ := ih rest st'
      (tr ++ [Event.buildCall k, Event.processCall k]) hpre'
    refine ⟨st2, ?_⟩
    show runSteps bld (k :: (pre' ++ rest)) st tr = _
    simp only [runSteps, h1, h2, h3, h4]
    rw [hst2, List.append_assoc]
    rfl

theorem mem_of_buildCall_mem_pairEvents {l : List K} {k : K}
    (h : Event.buildCall k ∈ pairEvents l) : k ∈ l := by
  induction l with
  | nil => simp [pairEvents] at h
  | cons a rest ih =>
    simp only [pairEvents, List.mem_cons] at h
    rcases h with h | h | h
    · exact (Event.buildCall.injEq k a).mp h ▸ List.mem_cons_self a rest
    · simp at h
    · exact List.mem_cons_of_mem a (ih h)

theorem mem_of_processCall_mem_pairEvents {l : List K} {k : K}
    (h : Event.processCall k ∈ pairEvents l) : k ∈ l := by
  induction l with
  | nil => simp [pairEvents] at h
  | cons a rest ih =>
    simp only [pairEvents, List.mem_cons] at h
    rcases h with h | h | h
    · simp at h
    · exact (Event.processCall.injEq k a).mp h ▸ List.mem_cons_self a rest
    · exact List.mem_cons_of_mem a (ih h)

theorem runSteps_no_keyErrorProcess [DecidableEq K]
    (bld : Builder K B IP S FP) :
    ∀ (keys : List K) (st : S) (tr : List (Event K)),
    (∀ j ∈ keys,
      (alookup bld.tables.process_executor_factories j).isSome = true) →
    ∀ k', (runSteps bld keys st tr).2 ≠
      Except.error (BuildError.keyErrorProcess k') := by
  intro keys
  induction keys with
  | nil =>
    intro st tr _ k'
    simp [runSteps]
  | cons k rest ih =>
    intro st tr hall k'
    cases h1 : alookup bld.tables.build_executor_factories k with
    | none => simp [runSteps, h1]
    | some bf =>
      cases h2 : buildExec bf bld.inst k with
      | error e =>
        have := buildExec_error_form h2
        simp [runSteps, h1, h2, this]
      | ok ip =>
        cases h3 : alookup bld.tables.process_executor_factories k with
        | none =>
          have := hall k (List.mem_cons_self k rest)
          rw [h3] at this
          simp at this
        | some pf =>
          cases h4 : processExec pf bld.inst ip st k with
          | error e =>
            have := processExec_error_form h4
            simp [runSteps, h1, h2, h3, h4, this]
          | ok st' =>
            have hrest : ∀ j ∈ rest,
                (alookup bld.tables.process_executor_factories j).isSome =
                  true :=
              fun j hj => hall j (List.mem_cons_of_mem k hj)
            have := ih st' (tr ++ [Event.buildCall k, Event.processCall k])
              hrest k'
            simpa [runSteps, h1, h2, h3, h4] using this

theorem buildRun_snd [DecidableEq K] (bld : Builder K B IP S FP) :
    bld.buildRun.2 = Except.map bld.evaluate_final_state
      (List.foldlM (specStep bld) bld.create_initial_state
        bld.filteredKeys) := by
  have h := runSteps_snd bld bld.filteredKeys bld.create_initial_state
    [Event.initState]
  unfold Builder.buildRun
  rcases hr : runSteps bld bld.filteredKeys bld.create_initial_state
    [Event.initState] with ⟨tr, res⟩
  rw [hr] at h
  simp only at h
  cases res with
  | ok st => simp [← h, Except.map]
  | error e => simp [← h, Except.map]

theorem buildRun_initState_once [DecidableEq K] (bld : Builder K B IP S FP) :
    countInitState bld.buildRun.1 = 1 ∧
      bld.buildRun.1.head? = some Event.initState := by
  obtain ⟨extra, hext, hcnt⟩ := runSteps_trace_extra bld bld.filteredKeys
    bld.create_initial_state [Event.initState]
  unfold Builder.buildRun
  rcases hr : runSteps bld bld.filteredKeys bld.create_initial_state
    [Event.initState] with ⟨tr, res⟩
  rw [hr] at hext
  simp only at hext
  cases res with
  | ok st =>
    simp only
    rw [hext]
    constructor
    · rw [List.append_assoc, countInitState_append]
      simp [countInitState, hcnt, countInitState_append]
    · simp
  | error e =>
    simp only
    rw [hext]
    constructor
    · rw [countInitState_append]
      simp [countInitState, hcnt]
    · simp

/-- A build operation ignoring the step key and returning a constant. -/
def exBF (v : Nat) : BuildFunc Nat Unit Nat :=
  BuildFunc.mk 1 (fun _ _ => v)

/-- A build operation that receives the step key and returns ten times it. -/
def exBFKey : BuildFunc Nat Unit Nat :=
  BuildFunc.mk 2 (fun _ ok => (Option.getD ok 0) * 10)

/-- A build operation with an unexpected parameter count. -/
def exBFBad : BuildFunc Nat Unit Nat :=
  BuildFunc.mk 3 (fun _ _ => 0)

/-- A process operation summing the intermediate product into the state. -/
def exPF : ProcessFunc Nat Unit Nat Nat :=
  ProcessFunc.mk 3 (fun _ ip st _ => st + ip)

/-- The tables registered for a list of step attributes (empty on error). -/
def regTables [DecidableEq K] (attrs : List (StepDef K B IP S)) :
    StepTables K B IP S :=
  match builder_meta_init attrs with
  | Except.ok t => t
  | Except.error _ => StepTables.mk [] []

/-- A concrete builder over Nat data: initial state 0, identity final
evaluation, the default filter hook. -/
def mkBuilder (T : StepTables Nat Unit Nat Nat) : Builder Nat Unit Nat Nat Nat :=
  Builder.mk () T 0 (fun s => s) default_filter_and_sort

/-- One build/process pair: f() -> 10 under key 1. -/
def ex1attrs : List (StepDef Nat Unit Nat Nat) :=
  [StepDef.bstep (build_step.mk [1] (exBF 10)),
   StepDef.pstep (process_step.mk [1] false exPF)]

/-- Two build/process pairs: f() -> 10 under key 1, f2() -> 5 under key 2. -/
def ex2attrs : List (StepDef Nat Unit Nat Nat) :=
  [StepDef.bstep (build_step.mk [1] (exBF 10)),
   StepDef.pstep (process_step.mk [1] false exPF),
   StepDef.bstep (build_step.mk [2] (exBF 5)),
   StepDef.pstep (process_step.mk [2] false exPF)]

/-- Two build steps declaring the same key 1. -/
def dupAttrs : List (StepDef Nat Unit Nat Nat) :=
  [StepDef.bstep (build_step.mk [1] (exBF 10)),
   StepDef.bstep (build_step.mk [1] (exBF 5))]

/-- A build step with keys {0, 1} and only a default process step. -/
def abAttrs : List (StepDef Nat Unit Nat Nat) :=
  [StepDef.bstep (build_step.mk [0, 1] (exBF 10)),
   StepDef.pstep (process_step.mk [] true exPF)]

/-- Two process steps both marked default. -/
def twoDefAttrs : List (StepDef Nat Unit Nat Nat) :=
  [StepDef.pstep (process_step.mk [1] true exPF),
   StepDef.pstep (process_step.mk [2] true exPF)]

/-- Build steps keyed 1, 2, 3 (key-aware operation) and a default process
step. -/
def ex123attrs : List (StepDef Nat Unit Nat Nat) :=
  [StepDef.bstep (build_step.mk [1, 2, 3] exBFKey),
   StepDef.pstep (process_step.mk [] true exPF)]

/-- The ex123attrs builder with the default hook. -/
def bld123 : Builder Nat Unit Nat Nat Nat :=
  mkBuilder (regTables ex123attrs)

/-- The ex123attrs builder with the hook overridden to return [3, 1, 2]. -/
def bld312 : Builder Nat Unit Nat Nat Nat :=
  { mkBuilder (regTables ex123attrs) with
      filter_and_sort_process_step_keys := fun _ => [3, 1, 2] }

/-- A build step whose operation has an unexpected parameter count, with a
paired process step. -/
def badArityAttrs : List (StepDef Nat Unit Nat Nat) :=
  [StepDef.bstep (build_step.mk [1] exBFBad),
   StepDef.pstep (process_step.mk [1] false exPF)]

/-- A process step whose key 1 has no registered build step. -/
def procOnlyAttrs : List (StepDef Nat Unit Nat Nat) :=
  [StepDef.pstep (process_step.mk [1] false exPF)]

/-- A build step under key 5 with no process step at all. -/
def buildOnlyAttrs : List (StepDef Nat Unit Nat Nat) :=
  [StepDef.bstep (build_step.mk [5] (exBF 7))]

/-- The buildOnlyAttrs builder with the hook overridden to schedule key 5,
which the process table does not hold. -/
def bld5 : Builder Nat Unit Nat Nat Nat :=
  { mkBuilder (regTables buildOnlyAttrs) with
      filter_and_sort_process_step_keys := fun _ => [5] }

/-- Claim C1: build() equals create_initial_state (invoked exactly once,
first), then a left fold of the build/process pair over the filtered and
sorted step-key list threading the state, then evaluate_final_state; in the
concrete one-pair example with f() -> 10 and g summing into state 0 it
returns 10, and adding a second pair f2() -> 5 yields 15. -/
theorem claim_C1_build_left_fold [DecidableEq K] (bld : Builder K B IP S FP) :
    bld.build = Except.map bld.evaluate_final_state
      (List.foldlM (specStep bld) bld.create_initial_state
        bld.filteredKeys) ∧
    countInitState bld.buildRun.1 = 1 ∧
    bld.buildRun.1.head? = some Event.initState ∧
    (mkBuilder (regTables ex1attrs)).build = Except.ok 10 ∧
    (mkBuilder (regTables ex2attrs)).build = Except.ok 15 :=
  ⟨buildRun_snd bld, (buildRun_initState_once bld).1,
    (buildRun_initState_once bld).2, by rfl, by rfl⟩

/-- Claim C2: build() executes exactly the step pairs of the list returned
by the hook, strictly sequentially in the returned order, threading state
(fold form); dropped keys have neither their build nor their process
operation invoked. -/
theorem claim_C2_sequential_execution [DecidableEq K]
    (bld : Builder K B IP S FP)
    (h : ∀ k ∈ bld.filteredKeys, stepOk bld k = true) :
    bld.buildRun.1 =
      Event.initState ::
        (pairEvents bld.filteredKeys ++ [Event.evalFinal]) ∧
    (∀ k, k ∉ bld.filteredKeys →
      Event.buildCall k ∉ bld.buildRun.1 ∧
      Event.processCall k ∉ bld.buildRun.1) ∧
    bld.build = Except.map bld.evaluate_final_state
      (List.foldlM (specStep bld) bld.create_initial_state
        bld.filteredKeys) := by
  obtain ⟨htr, st', hok⟩ := runSteps_of_all_ok bld bld.filteredKeys
    bld.create_initial_state [Event.initState] h
  have htrace : bld.buildRun.1 =
      Event.initState ::
        (pairEvents bld.filteredKeys ++ [Event.evalFinal]) := by
    unfold Builder.buildRun
    rcases hr : runSteps bld bld.filteredKeys bld.create_initial_state
      [Event.initState] with ⟨tr, res⟩
    rw [hr] at htr hok
    simp only at htr hok
    subst hok
    simp only
    rw [htr]
    rfl
  refine ⟨htrace, ?_, buildRun_snd bld⟩
  intro k hk
  rw [htrace]
  constructor
  · intro hmem
    rcases List.mem_cons.mp hmem with h1 | h1
    · simp at h1
    · rcases List.mem_append.mp h1 with h2 | h2
      · exact hk (mem_of_buildCall_mem_pairEvents h2)
      · simp at h2
  · intro hmem
    rcases List.mem_cons.mp hmem with h1 | h1
    · simp at h1
    · rcases List.mem_append.mp h1 with h2 | h2
      · exact hk (mem_of_processCall_mem_pairEvents h2)
      · simp at h2

/-- Witness for C2 at the concrete one-pair builder. -/
theorem claim_C2_witness :
    (mkBuilder (regTables ex1attrs)).buildRun.1 =
      Event.initState ::
        (pairEvents (mkBuilder (regTables ex1attrs)).filteredKeys ++
          [Event.evalFinal]) :=
  (claim_C2_sequential_execution (mkBuilder (regTables ex1attrs))
    (by decide)).1

/-- Claim C3: type registration succeeds exactly when each table's declared
keys are duplicate-free (and at most one default is declared); with at most
one default, a within-table duplicate makes registration fail with a
duplicate-key error.  The two tables are independent namespaces. -/
theorem claim_C3_duplicate_key [DecidableEq K]
    (attrs : List (StepDef K B IP S)) :
    (exceptOk (builder_meta_init attrs) = true ↔
      ((declDefaults attrs).length ≤ 1 ∧ (declBuildKeys attrs).Nodup ∧
        (declProcKeys attrs).Nodup)) ∧
    ((declDefaults attrs).length ≤ 1 →
      ¬((declBuildKeys attrs).Nodup ∧ (declProcKeys attrs).Nodup) →
      ∃ k, builder_meta_init attrs =
        Except.error (RegError.duplicateKey k)) :=
  ⟨builder_meta_init_ok_iff attrs, fun h1 h2 => builder_meta_init_dup h1 h2⟩

/-- Witness for C3: two build steps sharing key 1 fail with a duplicate-key
error, while one build step and one process step sharing key 1 register. -/
theorem claim_C3_witness :
    (∃ k, builder_meta_init dupAttrs =
      Except.error (RegError.duplicateKey k)) ∧
    exceptOk (builder_meta_init ex1attrs) = true :=
  ⟨(claim_C3_duplicate_key dupAttrs).2 (by decide) (by decide),
   (claim_C3_duplicate_key ex1attrs).1.mpr (by decide)⟩

/-- Claim C4: with a declared default process step, every key of the build
table resolves in the process table to its explicitly declared operation if
one exists and to the default operation otherwise; explicitly declared
process entries are never overwritten. -/
theorem claim_C4_default_backfill [DecidableEq K]
    {attrs : List (StepDef K B IP S)} {d : ProcessFunc K B IP S}
    {T : StepTables K B IP S}
    (hfd : findDefault attrs none = Except.ok (some d))
    (hT : builder_meta_init attrs = Except.ok T) :
    (∀ k ∈ akeys T.build_executor_factories,
      alookup T.process_executor_factories k =
        some ((alookup (declProcAssoc attrs) k).getD d)) ∧
    (∀ k ∈ declProcKeys attrs,
      alookup T.process_executor_factories k =
        alookup (declProcAssoc attrs) k) := by
  obtain ⟨hb, hp⟩ := builder_meta_init_ok_default hfd hT
  constructor
  · intro k hk
    rw [hb] at hk
    rw [hp]
    exact backfill_lookup_mem d _ hk
  · intro k hk
    have hsome : (alookup (declProcAssoc attrs) k).isSome = true :=
      (alookup_isSome_iff _ _).mpr hk
    cases hv : alookup (declProcAssoc attrs) k with
    | none =>
      rw [hv] at hsome
      simp at hsome
    | some v =>
      rw [hp]
      exact backfill_preserves_some d _ hv

/-- Witness for C4: a build step with keys {0, 1} and no explicit process
counterpart resolves both keys to the default operation. -/
theorem claim_C4_witness :
    alookup (regTables abAttrs).process_executor_factories 0 =
      some ((alookup (declProcAssoc abAttrs) 0).getD exPF) ∧
    alookup (regTables abAttrs).process_executor_factories 1 =
      some ((alookup (declProcAssoc abAttrs) 1).getD exPF) := by
  have hfd : findDefault abAttrs none = Except.ok (some exPF) := rfl
  have hT : builder_meta_init abAttrs = Except.ok (regTables abAttrs) := rfl
  have h := claim_C4_default_backfill hfd hT
  exact ⟨h.1 0 (by decide), h.1 1 (by decide)⟩

/-- Claim C5: more than one default process step makes registration fail
with the multiple-default error; with at most one, the scan records that
single default operation (or none). -/
theorem claim_C5_single_default [DecidableEq K]
    (attrs : List (StepDef K B IP S)) :
    (2 ≤ (declDefaults attrs).length →
      builder_meta_init attrs = Except.error RegError.multipleDefault) ∧
    ((declDefaults attrs).length ≤ 1 →
      findDefault attrs none = Except.ok (declDefaults attrs).head?) :=
  ⟨fun h => builder_meta_init_multi_default h,
   fun h => findDefault_none_le_one attrs h⟩

/-- Witness for C5 at two concrete attribute lists. -/
theorem claim_C5_witness :
    builder_meta_init twoDefAttrs =
      Except.error RegError.multipleDefault ∧
    findDefault ex1attrs none = Except.ok (declDefaults ex1attrs).head? :=
  ⟨(claim_C5_single_default twoDefAttrs).1 (by decide),
   (claim_C5_single_default ex1attrs).2 (by decide)⟩

/-- Claim C6: the default filter hook returns its input unchanged, so
build() receives the process-table keys in table iteration order; a builder
with keys [1, 2, 3] runs them in ascending declared order, and overriding
the hook to [3, 1, 2] changes only the execution order, not the step
results. -/
theorem claim_C6_default_hook_identity [DecidableEq K] (l : List K)
    (bld : Builder K B IP S FP) :
    default_filter_and_sort l = l ∧
    (bld.filter_and_sort_process_step_keys = default_filter_and_sort →
      bld.filteredKeys = bld.unfilteredKeys) ∧
    bld123.buildRun.1 =
      [Event.initState, Event.buildCall 1, Event.processCall 1,
       Event.buildCall 2, Event.processCall 2, Event.buildCall 3,
       Event.processCall 3, Event.evalFinal] ∧
    bld123.build = Except.ok 60 ∧
    bld312.buildRun.1 =
      [Event.initState, Event.buildCall 3, Event.processCall 3,
       Event.buildCall 1, Event.processCall 1, Event.buildCall 2,
       Event.processCall 2, Event.evalFinal] ∧
    bld312.build = Except.ok 60 := by
  refine ⟨rfl, ?_, by rfl, by rfl, by rfl, by rfl⟩
  intro h
  unfold Builder.filteredKeys
  rw [h]
  rfl

/-- Witness for C6 at the concrete [1, 2, 3] builder. -/
theorem claim_C6_witness : bld123.filteredKeys = bld123.unfilteredKeys :=
  (claim_C6_default_hook_identity ([] : List Nat) bld123).2.1 rfl

/-- Claim C7: a step operation with an unaccepted parameter count fails
with the arity ValueError when invoked, not at registration (the bad-arity
builder registers, and its build() fails before any operation runs);
accepted counts are called with the step key appended exactly when the
extra trailing parameter was declared. -/
theorem claim_C7_arity_dispatch :
    (∀ (f : BuildFunc K B IP) (b : B) (k : K),
      f.params ≠ 1 → f.params ≠ 2 →
      buildExec f b k = Except.error BuildError.valueError) ∧
    (∀ (f : ProcessFunc K B IP S) (b : B) (ip : IP) (st : S) (k : K),
      f.params ≠ 3 → f.params ≠ 4 →
      processExec f b ip st k = Except.error BuildError.valueError) ∧
    (∀ (f : BuildFunc K B IP) (b : B) (k : K),
      (f.params = 1 → buildExec f b k = Except.ok (f.app b none)) ∧
      (f.params = 2 → buildExec f b k = Except.ok (f.app b (some k)))) ∧
    (∀ (f : ProcessFunc K B IP S) (b : B) (ip : IP) (st : S) (k : K),
      (f.params = 3 →
        processExec f b ip st k = Except.ok (f.app b ip st none)) ∧
      (f.params = 4 →
        processExec f b ip st k = Except.ok (f.app b ip st (some k)))) ∧
    exceptOk (builder_meta_init badArityAttrs) = true ∧
    (mkBuilder (regTables badArityAttrs)).build =
      Except.error BuildError.valueError ∧
    (mkBuilder (regTables badArityAttrs)).buildRun.1 =
      [Event.initState] := by
  refine ⟨?_, ?_, ?_, ?_, by rfl, by rfl, by rfl⟩
  · intro f b k h1 h2
    simp [buildExec, h1, h2]
  · intro f b ip st k h1 h2
    simp [processExec, h1, h2]
  · intro f b k
    constructor
    · intro h1
      simp [buildExec, h1]
    · intro h2
      simp [buildExec, h2]
  · intro f b ip st k
    constructor
    · intro h1
      simp [processExec, h1]
    · intro h2
      simp [processExec, h2]

/-- Witness for C7: the three-parameter build operation fails with the
arity error when invoked. -/
theorem claim_C7_witness :
    buildExec exBFBad () 1 = Except.error BuildError.valueError :=
  (@claim_C7_arity_dispatch Nat Unit Nat Nat).1 exBFBad () 1
    (by decide) (by decide)

/-- Claim C8: if the scheduled key list reaches an identifier with no build
table entry, build() stops right there with the build-table KeyError, which
propagates to the caller, and no event for that identifier is recorded. -/
theorem claim_C8_missing_build_op [DecidableEq K]
    (bld : Builder K B IP S FP) (pre post : List K) (k : K)
    (hkeys : bld.filteredKeys = pre ++ k :: post)
    (hpre : ∀ j ∈ pre, stepOk bld j = true)
    (hnone : alookup bld.tables.build_executor_factories k = none) :
    bld.build = Except.error (BuildError.keyErrorBuild k) ∧
    bld.buildRun.1 = Event.initState :: pairEvents pre := by
  obtain ⟨st', hst⟩ := runSteps_prefix_ok bld pre (k :: post)
    bld.create_initial_state [Event.initState] hpre
  have hrun : runSteps bld bld.filteredKeys bld.create_initial_state
      [Event.initState] =
      ([Event.initState] ++ pairEvents pre,
        Except.error (BuildError.keyErrorBuild k)) := by
    rw [hkeys, hst]
    simp [runSteps, hnone]
  constructor
  · show bld.buildRun.2 = _
    unfold Builder.buildRun
    rw [hrun]
  · unfold Builder.buildRun
    rw [hrun]
    rfl

/-- Witness for C8: a process step under key 1 with no registered build
step fails with the build-table KeyError. -/
theorem claim_C8_witness :
    (mkBuilder (regTables procOnlyAttrs)).build =
      Except.error (BuildError.keyErrorBuild 1) ∧
    (mkBuilder (regTables procOnlyAttrs)).buildRun.1 =
      Event.initState :: pairEvents [] :=
  claim_C8_missing_build_op (mkBuilder (regTables procOnlyAttrs)) [] [] 1
    (by decide) (by decide) (by rfl)

/-- Claim C9: re-applying a step decorator to an already-decorated
definition merges the outer decorator's keys into the existing definition
(same operation, same default flag) instead of creating a second
definition, and registering the merged definition maps every accumulated
key to the one existing operation. -/
theorem claim_C9_decorator_merge [DecidableEq K]
    (outer inner : build_step K B IP)
    (pouter pinner : process_step K B IP S) :
    (outer.callOnStep inner).step_keys =
      inner.step_keys ++ outer.step_keys ∧
    (outer.callOnStep inner).func = inner.func ∧
    (pouter.callOnStep pinner).step_keys =
      pinner.step_keys ++ pouter.step_keys ∧
    (pouter.callOnStep pinner).func = pinner.func ∧
    (pouter.callOnStep pinner).default = pinner.default ∧
    (∀ T, builder_meta_init
        ([StepDef.bstep (outer.callOnStep inner)] :
          List (StepDef K B IP S)) = Except.ok T →
      ∀ k ∈ inner.step_keys ++ outer.step_keys,
        alookup T.build_executor_factories k = some inner.func) := by
  refine ⟨rfl, rfl, rfl, rfl, rfl, ?_⟩
  intro T hT k hk
  have hfd : findDefault
      ([StepDef.bstep (outer.callOnStep inner)] :
        List (StepDef K B IP S)) none = Except.ok none := rfl
  obtain ⟨hb, -⟩ := builder_meta_init_ok_no_default hfd hT
  rw [hb]
  have hda : declBuildAssoc
      ([StepDef.bstep (outer.callOnStep inner)] :
        List (StepDef K B IP S)) =
      (inner.step_keys ++ outer.step_keys).map
        (fun j => (j, inner.func)) := by
    simp [declBuildAssoc, build_step.callOnStep]
  rw [hda]
  exact alookup_map_pair inner.func hk

/-- Witness for C9 at two concrete build steps and key 2. -/
theorem claim_C9_witness :
    alookup (regTables
        ([StepDef.bstep ((build_step.mk [2] (exBF 99)).callOnStep
          (build_step.mk [1] (exBF 10)))] :
          List (StepDef Nat Unit Nat Nat))).build_executor_factories 2 =
      some (build_step.mk [1] (exBF 10)).func :=
  (claim_C9_decorator_merge (build_step.mk [2] (exBF 99))
    (build_step.mk [1] (exBF 10))
    (process_step.mk [2] false exPF)
    (process_step.mk [1] false exPF)).2.2.2.2.2
    (regTables ([StepDef.bstep ((build_step.mk [2] (exBF 99)).callOnStep
      (build_step.mk [1] (exBF 10)))] : List (StepDef Nat Unit Nat Nat)))
    (by rfl) 2 (by decide)

/-- Claim C10: scheduling a key that the build table holds but the process
table does not makes build() fail with the process-table KeyError, after
that key's build operation has already been invoked; when the scheduled
list stays inside the process-table keys this failure cannot occur. -/
theorem claim_C10_scheduled_without_process [DecidableEq K]
    (bld : Builder K B IP S FP) (pre post : List K) (k : K)
    (bf : BuildFunc K B IP)
    (hkeys : bld.filteredKeys = pre ++ k :: post)
    (hpre : ∀ j ∈ pre, stepOk bld j = true)
    (hbf : alookup bld.tables.build_executor_factories k = some bf)
    (hparams : bf.params = 1 ∨ bf.params = 2)
    (hnone : alookup bld.tables.process_executor_factories k = none) :
    bld.build = Except.error (BuildError.keyErrorProcess k) ∧
    bld.buildRun.1 =
      Event.initState :: (pairEvents pre ++ [Event.buildCall k]) ∧
    (∀ (bld2 : Builder K B IP S FP),
      (∀ j ∈ bld2.filteredKeys,
        (alookup bld2.tables.process_executor_factories j).isSome = true) →
      ∀ k', bld2.build ≠
        Except.error (BuildError.keyErrorProcess k')) := by
  obtain ⟨st', hst⟩ := runSteps_prefix_ok bld pre (k :: post)
    bld.create_initial_state [Event.initState] hpre
  obtain ⟨ip, hip⟩ := buildExec_ok_of_params bld.inst k hparams
  have hrun : runSteps bld bld.filteredKeys bld.create_initial_state
      [Event.initState] =
      (([Event.initState] ++ pairEvents pre) ++ [Event.buildCall k],
        Except.error (BuildError.keyErrorProcess k)) := by
    rw [hkeys, hst]
    simp [runSteps, hbf, hip, hnone]
  refine ⟨?_, ?_, ?_⟩
  · show bld.buildRun.2 = _
    unfold Builder.buildRun
    rw [hrun]
  · unfold Builder.buildRun
    rw [hrun]
    simp
  · intro bld2 hall k'
    have h := runSteps_no_keyErrorProcess bld2 bld2.filteredKeys
      bld2.create_initial_state [Event.initState] hall k'
    show bld2.buildRun.2 ≠ _
    unfold Builder.buildRun
    rcases hr : runSteps bld2 bld2.filteredKeys bld2.create_initial_state
      [Event.initState] with ⟨tr, res⟩
    rw [hr] at h
    simp only at h
    cases res with
    | ok st => simp
    | error e =>
      simp only
      intro hcontra
      exact h (by rw [Except.error.inj hcontra])

/-- Witness for C10: scheduling key 5, which only the build table holds,
fails with the process-table KeyError after the build call. -/
theorem claim_C10_witness :
    bld5.build = Except.error (BuildError.keyErrorProcess 5) ∧
    bld5.buildRun.1 =
      Event.initState :: (pairEvents [] ++ [Event.buildCall 5]) := by
  have h := claim_C10_scheduled_without_process bld5 [] [] 5 (exBF 7)
    (by decide) (by decide) (by rfl) (by decide) (by rfl)
  exact ⟨h.1, h.2.1⟩

end BuilderPattern
